import Mathlib

/-!
Verification of the nRF24LU1+ USB flasher (`prog/usb-flasher/usb-flash.py`)
against its natural-language specification.

The script is embedded shallowly:

* `pad` models the zero-padding of the firmware image
  (`data += b'\000' * (512 - len(data) % 512)`).
* `Ev` records every USB bulk transfer the write/verify phases issue, with
  its endpoint, payload and the timeout it was issued with (`none` when the
  script passes no explicit timeout).
* `runWritePages` / `runWriteBlocks` model the page-writing loop,
  `runVerifyPages` / `runVerifyBlocks` the verification loop, and `flash`
  the whole write-then-verify flow.  A transfer oracle `tOk : Nat → Bool`
  says whether the i-th transfer (in issue order) succeeds, and
  `devData : Nat → List Nat` gives the bytes the device returns for the
  read following a `[0x03, blockNumber]` request.
* `entryPhase` models the application-mode discovery loop
  (`for product_id in [0x0102, 0x7777]: ...`), `bootloaderPoll` the
  1-second bootloader re-discovery polling loop (real time abstracted as a
  poll-attempt budget), and `bootPhase` the flow from re-discovery onward.
-/

/-- Zero padding of the firmware image:
`data += b'\000' * (512 - len(data) % 512)`. -/
def pad (image : List Nat) : List Nat :=
  image ++ List.replicate (512 - image.length % 512) 0

/-- The 64-byte slice of the image at global block index `g`:
`data[g * 64 : g * 64 + 64]`. -/
def slice64 (data : List Nat) (g : Nat) : List Nat :=
  (data.drop (g * 64)).take 64

/-- A USB bulk transfer issued by the write/verify phases: endpoint,
payload (for writes) or length (for reads), and the timeout passed to
pyusb (`none` when the call passes no timeout argument). -/
inductive Ev where
  | write (ep : Nat) (payload : List Nat) (timeout : Option Nat)
  | read (ep : Nat) (len : Nat) (timeout : Option Nat)
  deriving DecidableEq

/-- The timeout an event was issued with. -/
def Ev.timeoutOf : Ev → Option Nat
  | .write _ _ t => t
  | .read _ _ t => t

/-- Result of running a phase: `ok blockNumber nextTransferIndex trace`,
a failed transfer, or a verification mismatch `vfail page block trace`.
The trace lists every transfer issued, the failing one included. -/
inductive RunRes where
  | ok (bn i : Nat) (tr : List Ev)
  | wfail (tr : List Ev)
  | vfail (page blk : Nat) (tr : List Ev)
  deriving DecidableEq

/-- The trace of a run result. -/
def RunRes.trace : RunRes → List Ev
  | .ok _ _ tr => tr
  | .wfail tr => tr
  | .vfail _ _ tr => tr

/-- Inner write loop (`for block in range(8)`): each block write
`dongle.write(0x01, list(block_write), timeout=usb_timeout)` is followed by
the ack read `dongle.read(0x81, 64, timeout=usb_timeout)`. -/
def runWriteBlocks (tOk : Nat → Bool) (data : List Nat) (page : Nat) :
    List Nat → Nat → List Ev → RunRes
  | [], i, tr => .ok 0 i tr
  | b :: rest, i, tr =>
    let w := Ev.write 1 ((data.drop (page * 512 + b * 64)).take 64) (some 2500)
    if tOk i then
      let r := Ev.read 0x81 64 (some 2500)
      if tOk (i + 1) then
        runWriteBlocks tOk data page rest (i + 2) (tr ++ [w, r])
      else .wfail (tr ++ [w, r])
    else .wfail (tr ++ [w])

/-- Outer write loop (`for page in range(page_count)`): the page header
`dongle.write(0x01, [0x02, page])` is issued with no timeout argument,
then the ack read, then the eight block writes. -/
def runWritePages (tOk : Nat → Bool) (data : List Nat) :
    List Nat → Nat → List Ev → RunRes
  | [], i, tr => .ok 0 i tr
  | p :: rest, i, tr =>
    let w := Ev.write 1 [2, p] none
    if tOk i then
      let r := Ev.read 0x81 64 (some 2500)
      if tOk (i + 1) then
        match runWriteBlocks tOk data p (List.range 8) (i + 2) (tr ++ [w, r]) with
        | .ok _ i2 tr2 => runWritePages tOk data rest i2 tr2
        | other => other
      else .wfail (tr ++ [w, r])
    else .wfail (tr ++ [w])

/-- Inner verify loop: `dongle.write(0x01, [0x03, block_number], ...)`,
read back 64 bytes, compare with `data[block_number*64 : block_number*64+64]`,
raise `Verification failed on page {page}, block {block}` on mismatch,
else `block_number += 1`. -/
def runVerifyBlocks (tOk : Nat → Bool) (devData : Nat → List Nat)
    (data : List Nat) (page : Nat) :
    List Nat → Nat → Nat → List Ev → RunRes
  | [], bn, i, tr => .ok bn i tr
  | b :: rest, bn, i, tr =>
    let w := Ev.write 1 [3, bn] (some 2500)
    if tOk i then
      let r := Ev.read 0x81 64 (some 2500)
      if tOk (i + 1) then
        if devData bn = slice64 data bn then
          runVerifyBlocks tOk devData data page rest (bn + 1) (i + 2) (tr ++ [w, r])
        else .vfail page b (tr ++ [w, r])
      else .wfail (tr ++ [w, r])
    else .wfail (tr ++ [w])

/-- Outer verify loop: per page, `dongle.write(0x01, [0x06, 0], ...)` and an
ack read, then the eight block verifications, with `block_number` carried
across pages. -/
def runVerifyPages (tOk : Nat → Bool) (devData : Nat → List Nat)
    (data : List Nat) :
    List Nat → Nat → Nat → List Ev → RunRes
  | [], bn, i, tr => .ok bn i tr
  | p :: rest, bn, i, tr =>
    let w := Ev.write 1 [6, 0] (some 2500)
    if tOk i then
      let r := Ev.read 0x81 64 (some 2500)
      if tOk (i + 1) then
        match runVerifyBlocks tOk devData data p (List.range 8) bn (i + 2) (tr ++ [w, r]) with
        | .ok bn2 i2 tr2 => runVerifyPages tOk devData data rest bn2 i2 tr2
        | other => other
      else .wfail (tr ++ [w, r])
    else .wfail (tr ++ [w])

/-- Overall outcome of the write-then-verify flow. -/
inductive FlashResult where
  | success
  | transferFailed
  | verifyFailed (page blk : Nat)
  deriving DecidableEq

/-- The whole write-then-verify flow on the (already padded) image `data`:
`page_count = len(data) // 512`, write every page, then verify every block;
a failed transfer aborts with `transferFailed`, a mismatch with
`verifyFailed page block`. -/
def flash (tOk : Nat → Bool) (devData : Nat → List Nat) (data : List Nat) :
    FlashResult × List Ev :=
  match runWritePages tOk data (List.range (data.length / 512)) 0 [] with
  | .ok _ i tr =>
    match runVerifyPages tOk devData data (List.range (data.length / 512)) 0 i tr with
    | .ok _ _ tr2 => (.success, tr2)
    | .wfail tr2 => (.transferFailed, tr2)
    | .vfail p b tr2 => (.verifyFailed p b, tr2)
  | .wfail tr => (.transferFailed, tr)
  | .vfail p b tr => (.verifyFailed p b, tr)

/-- The global block indices of the `[0x03, blockNumber]` verify-block
requests occurring in a trace, in issue order. -/
def verifyIndices (tr : List Ev) : List Nat :=
  tr.filterMap (fun e =>
    match e with
    | .write _ [a, n] _ => if a = 3 then some n else none
    | _ => none)

/-- Whether an event is a verification command: `[0x06, 0]` (begin verify
pass) or `[0x03, n]` (verify-block request). -/
def isVerifyCmd : Ev → Bool
  | .write _ [a, b] _ => a == 3 || (a == 6 && b == 0)
  | _ => false

/-- Events of the application-mode discovery/entry phase.  Commands sent on
a device handle are tagged with the product id the handle was found under. -/
inductive DEv where
  | find (vendor product : Nat)
  | bulkWrite (product ep : Nat) (payload : List Nat) (timeout : Option Nat)
  | ctrl (product reqType req value index : Nat) (timeout : Nat)
  | dispose (product : Nat)
  | reset (product : Nat)
  deriving DecidableEq

/-- One iteration of `for product_id in product_ids`: look the device up;
when found, send the entry command (`dongle.write(0x01, [0xFF], ...)` for
product 0x0102, `dongle.ctrl_transfer(0x40, 0xFF, 0, 0, None, ...)`
otherwise), then dispose and reset.  `bus vendor product` says whether such
a device is attached. -/
def entryStep (bus : Nat → Nat → Bool) (pid : Nat) : List DEv :=
  DEv.find 0x1915 pid ::
    (if bus 0x1915 pid then
      (if pid = 0x0102 then [DEv.bulkWrite pid 1 [0xFF] (some 2500)]
       else [DEv.ctrl pid 0x40 0xFF 0 0 2500]) ++
      [DEv.dispose pid, DEv.reset pid]
     else [])

/-- The application-mode discovery loop: `product_ids = [0x0102, 0x7777]`,
iterated in order with no early exit. -/
def entryPhase (bus : Nat → Nat → Bool) : List DEv :=
  entryStep bus 0x0102 ++ entryStep bus 0x7777

/-- Whether an event is a command (bulk write or control transfer) sent to
the device found under product id `pid`. -/
def isCmdTo (pid : Nat) : DEv → Bool
  | .bulkWrite p _ _ _ => p == pid
  | .ctrl p _ _ _ _ _ => p == pid
  | _ => false

/-- The commands sent to the device found under product id `pid`. -/
def entryCmdsTo (pid : Nat) (tr : List DEv) : List DEv :=
  tr.filter (isCmdTo pid)

/-- Whether an event is a device lookup. -/
def isFind : DEv → Bool
  | .find _ _ => true
  | _ => false

/-- Events of the bootloader re-discovery phase and what follows it. -/
inductive BEv where
  | find (vendor product : Nat)
  | setConfig
  | proto (e : Ev)
  deriving DecidableEq

/-- The bootloader re-discovery polling loop: repeatedly
`usb.core.find(idVendor=0x1915, idProduct=0x0101)`; on success call
`dongle.set_configuration()` and break.  The 1-second wall-clock window is
abstracted as a budget of poll attempts; `found k` says whether the device
is visible on the k-th attempt. -/
def bootloaderPoll (found : Nat → Bool) : Nat → Nat → Bool × List BEv
  | 0, _ => (false, [])
  | fuel + 1, k =>
    if found k then (true, [BEv.find 0x1915 0x0101, BEv.setConfig])
    else
      let res := bootloaderPoll found fuel (k + 1)
      (res.1, BEv.find 0x1915 0x0101 :: res.2)

/-- The flow from bootloader re-discovery onward: poll for the bootloader;
when found, configure it and run the write-then-verify flow on it. -/
def bootPhase (found : Nat → Bool) (fuel : Nat) (tOk : Nat → Bool)
    (devData : Nat → List Nat) (data : List Nat) : Bool × List BEv :=
  let p := bootloaderPoll found fuel 0
  if p.1 then (true, p.2 ++ (flash tOk devData data).2.map BEv.proto)
  else (false, p.2)

/-- Events issued by the inner write loop for the blocks `bs` of page
`page`. -/
def wbEvs (data : List Nat) (page : Nat) : List Nat → List Ev
  | [] => []
  | b :: rest =>
    Ev.write 1 ((data.drop (page * 512 + b * 64)).take 64) (some 2500) ::
      Ev.read 0x81 64 (some 2500) :: wbEvs data page rest

/-- Events issued by the write phase for the pages `ps`. -/
def wpEvs (data : List Nat) : List Nat → List Ev
  | [] => []
  | p :: rest =>
    Ev.write 1 [2, p] none :: Ev.read 0x81 64 (some 2500) ::
      (wbEvs data p (List.range 8) ++ wpEvs data rest)

/-- Events issued by `n` successful block verifications starting at global
block index `bn`. -/
def vbEvs : Nat → Nat → List Ev
  | _, 0 => []
  | bn, n + 1 =>
    Ev.write 1 [3, bn] (some 2500) :: Ev.read 0x81 64 (some 2500) ::
      vbEvs (bn + 1) n

/-- Events issued by `n` successfully verified pages starting at global
block index `bn`. -/
def vpEvs : Nat → Nat → List Ev
  | _, 0 => []
  | bn, n + 1 =>
    Ev.write 1 [6, 0] (some 2500) :: Ev.read 0x81 64 (some 2500) ::
      (vbEvs bn 8 ++ vpEvs (bn + 8) n)

theorem pad_length (image : List Nat) :
    (pad image).length = image.length + (512 - image.length % 512) := by
  simp [pad]

theorem pad_length_mod (image : List Nat) : (pad image).length % 512 = 0 := by
  rw [pad_length]
  omega


/-- The claim's padded-length formula fails on the code: a 512-byte image
is padded to 1024 bytes, not left alone. -/
theorem C1_counterexample :
    (pad (List.replicate 512 0)).length ≠
      (List.replicate 512 0).length +
        (512 - (List.replicate 512 0).length % 512) % 512 := by
  simp only [pad_length, List.length_replicate]
  omega

/-- C1 (amended): the padded image has length L + (512 - L mod 512) — in
particular a full 512 zero bytes are appended when L is already a multiple
of 512 — the padded length is a multiple of 512, the first L bytes equal
the original image, and every appended padding byte is zero. -/
theorem C1_pad_spec (image : List Nat) :
    (pad image).length = image.length + (512 - image.length % 512) ∧
    (pad image).length % 512 = 0 ∧
    (pad image).take image.length = image ∧
    (pad image).drop image.length =
      List.replicate (512 - image.length % 512) 0 := by
  refine ⟨pad_length image, pad_length_mod image, ?_, ?_⟩
  · simp [pad]
  · simp [pad]

theorem runWriteBlocks_ok (tOk : Nat → Bool) (data : List Nat) (page : Nat)
    (bs : List Nat) :
    ∀ i tr, (∀ j, i ≤ j → j < i + 2 * bs.length → tOk j = true) →
    runWriteBlocks tOk data page bs i tr =
      .ok 0 (i + 2 * bs.length) (tr ++ wbEvs data page bs) := by
  induction bs with
  | nil => intro i tr _; simp [runWriteBlocks, wbEvs]
  | cons b rest ih =>
    intro i tr h
    have h0 : tOk i = true :=
      h i (le_refl i) (by simp only [List.length_cons]; omega)
    have h1 : tOk (i + 1) = true :=
      h (i + 1) (by omega) (by simp only [List.length_cons]; omega)
    have hrec := ih (i + 2)
      (tr ++ [Ev.write 1 ((data.drop (page * 512 + b * 64)).take 64) (some 2500),
              Ev.read 0x81 64 (some 2500)])
      (fun j hj1 hj2 => h j (by omega) (by simp only [List.length_cons]; omega))
    simp only [runWriteBlocks, h0, h1, if_true, hrec, wbEvs,
      List.append_assoc, List.cons_append, List.nil_append, List.length_cons]
    congr 1
    omega

theorem runWritePages_ok (tOk : Nat → Bool) (data : List Nat)
    (ps : List Nat) :
    ∀ i tr, (∀ j, i ≤ j → j < i + 18 * ps.length → tOk j = true) →
    runWritePages tOk data ps i tr =
      .ok 0 (i + 18 * ps.length) (tr ++ wpEvs data ps) := by
  induction ps with
  | nil => intro i tr _; simp [runWritePages, wpEvs]
  | cons p rest ih =>
    intro i tr h
    have h0 : tOk i = true :=
      h i (le_refl i) (by simp only [List.length_cons]; omega)
    have h1 : tOk (i + 1) = true :=
      h (i + 1) (by omega) (by simp only [List.length_cons]; omega)
    have hbl := runWriteBlocks_ok tOk data p (List.range 8) (i + 2)
      (tr ++ [Ev.write 1 [2, p] none, Ev.read 0x81 64 (some 2500)])
      (fun j hj1 hj2 => h j (by omega)
        (by simp only [List.length_range] at hj2; simp only [List.length_cons]; omega))
    have hrec := ih (i + 2 + 2 * (List.range 8).length)
      (tr ++ [Ev.write 1 [2, p] none, Ev.read 0x81 64 (some 2500)] ++
        wbEvs data p (List.range 8))
      (fun j hj1 hj2 => by
        simp only [List.length_range] at hj1 hj2
        exact h j (by omega) (by simp only [List.length_cons]; omega))
    simp only [List.length_range, List.append_assoc, List.cons_append,
      List.nil_append] at hbl hrec
    simp only [runWritePages, h0, h1, if_true, hbl, hrec, wpEvs,
      List.append_assoc, List.cons_append, List.nil_append,
      List.length_cons, List.length_range]
    congr 1
    omega

theorem runVerifyBlocks_ok (tOk : Nat → Bool) (devData : Nat → List Nat)
    (data : List Nat) (page : Nat) (hok : ∀ j, tOk j = true)
    (bs : List Nat) :
    ∀ bn i tr,
    (∀ j, bn ≤ j → j < bn + bs.length → devData j = slice64 data j) →
    runVerifyBlocks tOk devData data page bs bn i tr =
      .ok (bn + bs.length) (i + 2 * bs.length) (tr ++ vbEvs bn bs.length) := by
  induction bs with
  | nil => intro bn i tr _; simp [runVerifyBlocks, vbEvs]
  | cons b rest ih =>
    intro bn i tr h
    have hd : devData bn = slice64 data bn :=
      h bn (le_refl bn) (by simp only [List.length_cons]; omega)
    have hrec := ih (bn + 1) (i + 2)
      (tr ++ [Ev.write 1 [3, bn] (some 2500), Ev.read 0x81 64 (some 2500)])
      (fun j hj1 hj2 => h j (by omega) (by simp only [List.length_cons]; omega))
    simp only [List.append_assoc, List.cons_append, List.nil_append] at hrec
    simp only [runVerifyBlocks, hok, if_true, hd, eq_self_iff_true, hrec,
      vbEvs, List.append_assoc, List.cons_append, List.nil_append,
      List.length_cons]
    congr 1 <;> omega

theorem runVerifyPages_ok (tOk : Nat → Bool) (devData : Nat → List Nat)
    (data : List Nat) (hok : ∀ j, tOk j = true) (ps : List Nat) :
    ∀ bn i tr,
    (∀ j, bn ≤ j → j < bn + 8 * ps.length → devData j = slice64 data j) →
    runVerifyPages tOk devData data ps bn i tr =
      .ok (bn + 8 * ps.length) (i + 18 * ps.length) (tr ++ vpEvs bn ps.length) := by
  induction ps with
  | nil => intro bn i tr _; simp [runVerifyPages, vpEvs]
  | cons p rest ih =>
    intro bn i tr h
    have hbl := runVerifyBlocks_ok tOk devData data p hok (List.range 8) bn (i + 2)
      (tr ++ [Ev.write 1 [6, 0] (some 2500), Ev.read 0x81 64 (some 2500)])
      (fun j hj1 hj2 => h j hj1
        (by simp only [List.length_range] at hj2
            simp only [List.length_cons]; omega))
    have hrec := ih (bn + (List.range 8).length) (i + 2 + 2 * (List.range 8).length)
      (tr ++ [Ev.write 1 [6, 0] (some 2500), Ev.read 0x81 64 (some 2500)] ++
        vbEvs bn (List.range 8).length)
      (fun j hj1 hj2 => by
        simp only [List.length_range] at hj1 hj2
        exact h j (by omega) (by simp only [List.length_cons]; omega))
    simp only [List.length_range, List.append_assoc, List.cons_append,
      List.nil_append] at hbl hrec
    simp only [runVerifyPages, hok, if_true, hbl, hrec, vpEvs,
      List.append_assoc, List.cons_append, List.nil_append,
      List.length_cons, List.length_range]
    congr 1 <;> omega

/-- C3: on a padded image, when every transfer succeeds and every verify
read returns exactly the 64-byte slice of the image at the requested global
block index, the whole write-then-verify flow ends in overall success. -/
theorem C3_roundtrip_success (tOk : Nat → Bool) (devData : Nat → List Nat)
    (data : List Nat) (hpad : data.length % 512 = 0)
    (hok : ∀ j, tOk j = true)
    (hdev : ∀ n, devData n = slice64 data n) :
    (flash tOk devData data).1 = .success := by
  have h1 := runWritePages_ok tOk data (List.range (data.length / 512)) 0 []
    (fun j _ _ => hok j)
  have h2 := runVerifyPages_ok tOk devData data hok
    (List.range (data.length / 512)) 0
    (0 + 18 * (List.range (data.length / 512)).length)
    ([] ++ wpEvs data (List.range (data.length / 512)))
    (fun j _ _ => hdev j)
  simp only [List.length_range, List.nil_append, Nat.zero_add] at h1 h2
  simp only [flash, h1, h2]

/-- Witness for C3 on a concrete 512-byte image with a faithful device. -/
theorem C3_roundtrip_success_witness :
    (flash (fun _ => true)
      (fun n => slice64 (List.replicate 512 0) n)
      (List.replicate 512 0)).1 = .success :=
  C3_roundtrip_success (fun _ => true) _ _
    (by simp only [List.length_replicate, Nat.mod_self])
    (fun _ => rfl) (fun _ => rfl)

theorem verifyIndices_append (l1 l2 : List Ev) :
    verifyIndices (l1 ++ l2) = verifyIndices l1 ++ verifyIndices l2 := by
  simp [verifyIndices]

theorem verifyIndices_cons_w3 (ep bn : Nat) (t : Option Nat) (l : List Ev) :
    verifyIndices (Ev.write ep [3, bn] t :: l) = bn :: verifyIndices l := by
  simp [verifyIndices]

theorem verifyIndices_cons_read (ep len : Nat) (t : Option Nat) (l : List Ev) :
    verifyIndices (Ev.read ep len t :: l) = verifyIndices l := by
  simp [verifyIndices]

theorem verifyIndices_cons_w6 (ep : Nat) (t : Option Nat) (l : List Ev) :
    verifyIndices (Ev.write ep [6, 0] t :: l) = verifyIndices l := by
  simp [verifyIndices]

theorem verifyIndices_cons_w2 (ep p : Nat) (t : Option Nat) (l : List Ev) :
    verifyIndices (Ev.write ep [2, p] t :: l) = verifyIndices l := by
  simp [verifyIndices]

theorem verifyIndices_cons_write_long (ep : Nat) (pl : List Nat)
    (t : Option Nat) (l : List Ev) (h : pl.length ≠ 2) :
    verifyIndices (Ev.write ep pl t :: l) = verifyIndices l := by
  rcases pl with _ | ⟨a, _ | ⟨b, _ | ⟨c, rest⟩⟩⟩ <;> simp_all [verifyIndices]

theorem verifyIndices_vbEvs (n : Nat) :
    ∀ bn, verifyIndices (vbEvs bn n) = List.range' bn n := by
  induction n with
  | zero => intro bn; simp [vbEvs, verifyIndices]
  | succ m ih =>
    intro bn
    rw [vbEvs, verifyIndices_cons_w3, verifyIndices_cons_read, ih,
      List.range'_succ]

theorem verifyIndices_vpEvs (n : Nat) :
    ∀ bn, verifyIndices (vpEvs bn n) = List.range' bn (8 * n) := by
  induction n with
  | zero => intro bn; simp [vpEvs, verifyIndices]
  | succ m ih =>
    intro bn
    rw [vpEvs, verifyIndices_cons_w6, verifyIndices_cons_read,
      verifyIndices_append, verifyIndices_vbEvs, ih,
      List.range'_append_1 bn 8 (8 * m)]
    congr 1

theorem slice_take_length (data : List Nat) (k : Nat)
    (h : k + 64 ≤ data.length) :
    ((data.drop k).take 64).length = 64 := by
  simp only [List.length_take, List.length_drop]
  omega

theorem verifyIndices_wbEvs (data : List Nat) (page : Nat) (bs : List Nat)
    (h : ∀ b ∈ bs, page * 512 + b * 64 + 64 ≤ data.length) :
    verifyIndices (wbEvs data page bs) = [] := by
  induction bs with
  | nil => simp [wbEvs, verifyIndices]
  | cons b rest ih =>
    have hb : page * 512 + b * 64 + 64 ≤ data.length := h b (by simp)
    have hlen : ((data.drop (page * 512 + b * 64)).take 64).length ≠ 2 := by
      rw [slice_take_length data _ hb]
      omega
    rw [wbEvs, verifyIndices_cons_write_long _ _ _ _ hlen,
      verifyIndices_cons_read]
    exact ih (fun x hx => h x (by simp [hx]))

theorem verifyIndices_wpEvs (data : List Nat) (ps : List Nat)
    (h : ∀ p ∈ ps, (p + 1) * 512 ≤ data.length) :
    verifyIndices (wpEvs data ps) = [] := by
  induction ps with
  | nil => simp [wpEvs, verifyIndices]
  | cons p rest ih =>
    have hp : (p + 1) * 512 ≤ data.length := h p (by simp)
    rw [wpEvs, verifyIndices_cons_w2, verifyIndices_cons_read,
      verifyIndices_append,
      verifyIndices_wbEvs data p (List.range 8)
        (fun b hb => by simp only [List.mem_range] at hb; omega),
      ih (fun x hx => h x (by simp [hx]))]
    simp

theorem verifyIndices_wpEvs_range (data : List Nat)
    (hpad : data.length % 512 = 0) :
    verifyIndices (wpEvs data (List.range (data.length / 512))) = [] :=
  verifyIndices_wpEvs data _ (fun p hp => by
    simp only [List.mem_range] at hp; omega)

theorem getD_range (n m : Nat) (h : m < n) : (List.range n).getD m 0 = m := by
  rw [List.getD_eq_getElem?_getD, List.range_eq_range',
    List.getElem?_range' 0 1 h]
  simp

theorem runVerifyBlocks_bad (tOk : Nat → Bool) (devData : Nat → List Nat)
    (data : List Nat) (page : Nat) (hok : ∀ j, tOk j = true)
    (bs : List Nat) :
    ∀ r bn i tr, r < bs.length →
    (∀ l, l < r → devData (bn + l) = slice64 data (bn + l)) →
    devData (bn + r) ≠ slice64 data (bn + r) →
    runVerifyBlocks tOk devData data page bs bn i tr =
      .vfail page (bs.getD r 0) (tr ++ vbEvs bn (r + 1)) := by
  induction bs with
  | nil => intro r bn i tr hr _ _; simp at hr
  | cons b rest ih =>
    intro r bn i tr hr hbelow hne
    cases r with
    | zero =>
      have hne0 : ¬ devData bn = slice64 data bn := by simpa using hne
      simp only [runVerifyBlocks, hok, if_true, if_neg hne0, vbEvs,
        List.getD_cons_zero, List.append_assoc, List.cons_append,
        List.nil_append]
    | succ r2 =>
      have hd : devData bn = slice64 data bn := by
        have h0 := hbelow 0 (Nat.succ_pos r2)
        simpa using h0
      have hb2 : ∀ l, l < r2 →
          devData (bn + 1 + l) = slice64 data (bn + 1 + l) := by
        intro l hl
        have hx := hbelow (l + 1) (by omega)
        have e : bn + (l + 1) = bn + 1 + l := by omega
        rw [e] at hx
        exact hx
      have hne2 : devData (bn + 1 + r2) ≠ slice64 data (bn + 1 + r2) := by
        have e : bn + (r2 + 1) = bn + 1 + r2 := by omega
        rw [e] at hne
        exact hne
      have hrec := ih r2 (bn + 1) (i + 2)
        (tr ++ [Ev.write 1 [3, bn] (some 2500), Ev.read 0x81 64 (some 2500)])
        (by simpa using hr) hb2 hne2
      simp only [List.append_assoc, List.cons_append, List.nil_append] at hrec
      simp only [runVerifyBlocks, hok, if_true, hd, eq_self_iff_true, hrec,
        vbEvs, List.getD_cons_succ, List.append_assoc, List.cons_append,
        List.nil_append]

theorem runVerifyPages_bad (tOk : Nat → Bool) (devData : Nat → List Nat)
    (data : List Nat) (hok : ∀ j, tOk j = true) (k : Nat)
    (hbelow : ∀ l, l < k → devData l = slice64 data l)
    (hne : devData k ≠ slice64 data k) (ps : List Nat) :
    ∀ bn i tr, bn ≤ k → k < bn + 8 * ps.length →
    runVerifyPages tOk devData data ps bn i tr =
      .vfail (ps.getD ((k - bn) / 8) 0) ((k - bn) % 8)
        (tr ++ vpEvs bn ((k - bn) / 8) ++
          Ev.write 1 [6, 0] (some 2500) :: Ev.read 0x81 64 (some 2500) ::
            vbEvs (bn + 8 * ((k - bn) / 8)) ((k - bn) % 8 + 1)) := by
  induction ps with
  | nil =>
    intro bn i tr hbn hk
    simp only [List.length_nil, Nat.mul_zero, Nat.add_zero] at hk
    omega
  | cons p rest ih =>
    intro bn i tr hbn hk
    by_cases hcase : k < bn + 8
    · have hbl := runVerifyBlocks_bad tOk devData data p hok (List.range 8)
        (k - bn) bn (i + 2)
        (tr ++ [Ev.write 1 [6, 0] (some 2500), Ev.read 0x81 64 (some 2500)])
        (by simp only [List.length_range]; omega)
        (fun l hl => hbelow (bn + l) (by omega))
        (by rw [show bn + (k - bn) = k from by omega]; exact hne)
      simp only [List.append_assoc, List.cons_append, List.nil_append] at hbl
      simp only [runVerifyPages, hok, if_true, hbl]
      rw [getD_range 8 (k - bn) (by omega)]
      have hq : (k - bn) / 8 = 0 := by omega
      have hr8 : (k - bn) % 8 = k - bn := by omega
      rw [hq, hr8]
      simp only [List.getD_cons_zero, vpEvs, Nat.mul_zero, Nat.add_zero,
        List.nil_append, List.append_assoc, List.cons_append]
    · have hbl := runVerifyBlocks_ok tOk devData data p hok (List.range 8)
        bn (i + 2)
        (tr ++ [Ev.write 1 [6, 0] (some 2500), Ev.read 0x81 64 (some 2500)])
        (fun j hj1 hj2 => hbelow j
          (by simp only [List.length_range] at hj2; omega))
      have hrec := ih (bn + (List.range 8).length)
        (i + 2 + 2 * (List.range 8).length)
        (tr ++ [Ev.write 1 [6, 0] (some 2500), Ev.read 0x81 64 (some 2500)] ++
          vbEvs bn (List.range 8).length)
        (by simp only [List.length_range]; omega)
        (by simp only [List.length_cons] at hk
            simp only [List.length_range]; omega)
      simp only [List.length_range, List.append_assoc, List.cons_append,
        List.nil_append] at hbl hrec
      simp only [runVerifyPages, hok, if_true, hbl, hrec]
      have hq : (k - bn) / 8 = (k - (bn + 8)) / 8 + 1 := by omega
      have hm : (k - bn) % 8 = (k - (bn + 8)) % 8 := by omega
      rw [hq, hm]
      have ha : bn + 8 * ((k - (bn + 8)) / 8 + 1) =
          bn + 8 + 8 * ((k - (bn + 8)) / 8) := by omega
      rw [ha]
      simp only [List.getD_cons_succ, vpEvs, List.append_assoc,
        List.cons_append, List.nil_append]

theorem flash_ok (tOk : Nat → Bool) (devData : Nat → List Nat)
    (data : List Nat) (hok : ∀ j, tOk j = true)
    (hdev : ∀ n, n < data.length / 512 * 8 → devData n = slice64 data n) :
    flash tOk devData data =
      (.success,
        wpEvs data (List.range (data.length / 512)) ++
          vpEvs 0 (data.length / 512)) := by
  have h1 := runWritePages_ok tOk data (List.range (data.length / 512)) 0 []
    (fun j _ _ => hok j)
  have h2 := runVerifyPages_ok tOk devData data hok
    (List.range (data.length / 512)) 0
    (0 + 18 * (List.range (data.length / 512)).length)
    ([] ++ wpEvs data (List.range (data.length / 512)))
    (fun j _ hj => hdev j (by simp only [List.length_range] at hj; omega))
  simp only [List.length_range, List.nil_append, Nat.zero_add] at h1 h2
  simp only [flash, h1, h2]

theorem flash_bad (tOk : Nat → Bool) (devData : Nat → List Nat)
    (data : List Nat) (k : Nat)
    (hok : ∀ j, tOk j = true) (hk : k < data.length / 512 * 8)
    (hbelow : ∀ l, l < k → devData l = slice64 data l)
    (hne : devData k ≠ slice64 data k) :
    flash tOk devData data =
      (.verifyFailed (k / 8) (k % 8),
        wpEvs data (List.range (data.length / 512)) ++
          vpEvs 0 (k / 8) ++
          Ev.write 1 [6, 0] (some 2500) :: Ev.read 0x81 64 (some 2500) ::
            vbEvs (8 * (k / 8)) (k % 8 + 1)) := by
  have h1 := runWritePages_ok tOk data (List.range (data.length / 512)) 0 []
    (fun j _ _ => hok j)
  have h2 := runVerifyPages_bad tOk devData data hok k hbelow hne
    (List.range (data.length / 512)) 0
    (0 + 18 * (List.range (data.length / 512)).length)
    ([] ++ wpEvs data (List.range (data.length / 512)))
    (Nat.zero_le k) (by simp only [List.length_range]; omega)
  simp only [List.length_range, List.nil_append, Nat.zero_add,
    Nat.sub_zero] at h1 h2
  simp only [flash, h1, h2]
  rw [getD_range _ _ (by omega)]

theorem verifyIndices_flash_ok (tOk : Nat → Bool) (devData : Nat → List Nat)
    (data : List Nat) (hpad : data.length % 512 = 0)
    (hok : ∀ j, tOk j = true)
    (hdev : ∀ n, n < data.length / 512 * 8 → devData n = slice64 data n) :
    verifyIndices (flash tOk devData data).2 =
      List.range (data.length / 512 * 8) := by
  simp only [flash_ok tOk devData data hok hdev, verifyIndices_append,
    verifyIndices_wpEvs_range data hpad, verifyIndices_vpEvs,
    List.nil_append]
  rw [List.range_eq_range']
  congr 1
  omega

theorem verifyIndices_flash_bad (tOk : Nat → Bool) (devData : Nat → List Nat)
    (data : List Nat) (k : Nat) (hpad : data.length % 512 = 0)
    (hok : ∀ j, tOk j = true) (hk : k < data.length / 512 * 8)
    (hbelow : ∀ l, l < k → devData l = slice64 data l)
    (hne : devData k ≠ slice64 data k) :
    verifyIndices (flash tOk devData data).2 = List.range (k + 1) := by
  simp only [flash_bad tOk devData data k hok hk hbelow hne,
    verifyIndices_append, verifyIndices_wpEvs_range data hpad,
    verifyIndices_vpEvs, verifyIndices_cons_w6, verifyIndices_cons_read,
    verifyIndices_vbEvs, List.nil_append]
  have happ := List.range'_append_1 0 (8 * (k / 8)) (k % 8 + 1)
  simp only [Nat.zero_add] at happ
  rw [happ, List.range_eq_range']
  congr 1
  omega

/-- C2: on a padded image with all transfers succeeding, when the device
returns a wrong block for global block index k but correct blocks for every
index below k, verification fails reporting page = k / 8 and
block-within-page = k mod 8, and no verify-block request with a global
index greater than k is ever issued. -/
theorem C2_verify_failfast (tOk : Nat → Bool) (devData : Nat → List Nat)
    (data : List Nat) (k : Nat) (hpad : data.length % 512 = 0)
    (hok : ∀ j, tOk j = true) (hk : k < data.length / 512 * 8)
    (hbelow : ∀ l, l < k → devData l = slice64 data l)
    (hne : devData k ≠ slice64 data k) :
    (flash tOk devData data).1 = .verifyFailed (k / 8) (k % 8) ∧
    ∀ n ∈ verifyIndices (flash tOk devData data).2, n ≤ k := by
  constructor
  · rw [flash_bad tOk devData data k hok hk hbelow hne]
  · intro n hn
    rw [verifyIndices_flash_bad tOk devData data k hpad hok hk hbelow hne]
      at hn
    simp only [List.mem_range] at hn
    omega

/-- Witness for C2: a one-page image of zeros where the device corrupts
global block 3; verification fails on page 0, block 3. -/
theorem C2_verify_failfast_witness :
    (flash (fun _ => true)
        (fun n => if n = 3 then [1] else slice64 (List.replicate 512 0) n)
        (List.replicate 512 0)).1 = .verifyFailed (3 / 8) (3 % 8) ∧
    ∀ n ∈ verifyIndices (flash (fun _ => true)
        (fun n => if n = 3 then [1] else slice64 (List.replicate 512 0) n)
        (List.replicate 512 0)).2, n ≤ 3 :=
  C2_verify_failfast _ _ _ 3
    (by simp only [List.length_replicate, Nat.mod_self])
    (fun _ => rfl)
    (by simp only [List.length_replicate]; decide)
    (fun l hl => by simp only [if_neg (by omega : ¬ l = 3)])
    (by simp only [if_pos rfl]; decide)

/-- C4: on a padded image with all transfers succeeding, the verify-block
requests carry global block indices forming an initial segment 0, 1, 2, ...
(starting at 0, increasing by exactly 1, never resetting at a page
boundary), and when the device readback matches the image everywhere the
indices are exactly 0 .. pageCount * 8 - 1. -/
theorem C4_block_index (tOk : Nat → Bool) (devData : Nat → List Nat)
    (data : List Nat) (hpad : data.length % 512 = 0)
    (hok : ∀ j, tOk j = true) :
    (∃ m, m ≤ data.length / 512 * 8 ∧
        verifyIndices (flash tOk devData data).2 = List.range m) ∧
    ((∀ n, devData n = slice64 data n) →
      verifyIndices (flash tOk devData data).2 =
        List.range (data.length / 512 * 8)) := by
  constructor
  · by_cases hall : ∀ n, n < data.length / 512 * 8 →
        devData n = slice64 data n
    · exact ⟨data.length / 512 * 8, le_refl _,
        verifyIndices_flash_ok tOk devData data hpad hok hall⟩
    · push_neg at hall
      obtain ⟨n0, hn0lt, hn0ne⟩ := hall
      have hex : ∃ n, n < data.length / 512 * 8 ∧
          devData n ≠ slice64 data n := ⟨n0, hn0lt, hn0ne⟩
      refine ⟨Nat.find hex + 1, ?_, ?_⟩
      · have := (Nat.find_spec hex).1
        omega
      · refine verifyIndices_flash_bad tOk devData data (Nat.find hex) hpad
          hok (Nat.find_spec hex).1 ?_ (Nat.find_spec hex).2
        intro l hl
        by_contra hc
        exact Nat.find_min hex hl
          ⟨by have := (Nat.find_spec hex).1; omega, hc⟩
  · intro hdev
    exact verifyIndices_flash_ok tOk devData data hpad hok
      (fun n _ => hdev n)

/-- Witness for C4 on a concrete 512-byte image with a faithful device. -/
theorem C4_block_index_witness :
    (∃ m, m ≤ (List.replicate 512 0).length / 512 * 8 ∧
        verifyIndices (flash (fun _ => true)
          (fun n => slice64 (List.replicate 512 0) n)
          (List.replicate 512 0)).2 = List.range m) ∧
    ((∀ n, (fun n => slice64 (List.replicate 512 0) n) n =
        slice64 (List.replicate 512 0) n) →
      verifyIndices (flash (fun _ => true)
          (fun n => slice64 (List.replicate 512 0) n)
          (List.replicate 512 0)).2 =
        List.range ((List.replicate 512 0).length / 512 * 8)) :=
  C4_block_index _ _ _
    (by simp only [List.length_replicate, Nat.mod_self])
    (fun _ => rfl)

theorem runWriteBlocks_fail (tOk : Nat → Bool) (data : List Nat)
    (page : Nat) (bs : List Nat) :
    ∀ i tr, (∃ j, i ≤ j ∧ j < i + 2 * bs.length ∧ tOk j = false) →
    ∃ tr2, runWriteBlocks tOk data page bs i tr = .wfail tr2 := by
  induction bs with
  | nil =>
    intro i tr ⟨j, hj1, hj2, _⟩
    simp only [List.length_nil, Nat.mul_zero, Nat.add_zero] at hj2
    omega
  | cons b rest ih =>
    intro i tr ⟨j, hj1, hj2, hj⟩
    cases hi : tOk i with
    | false =>
      exact ⟨tr ++ [Ev.write 1 ((data.drop (page * 512 + b * 64)).take 64)
        (some 2500)], by simp [runWriteBlocks, hi]⟩
    | true =>
      cases hi1 : tOk (i + 1) with
      | false =>
        exact ⟨tr ++ [Ev.write 1 ((data.drop (page * 512 + b * 64)).take 64)
          (some 2500), Ev.read 0x81 64 (some 2500)],
          by simp [runWriteBlocks, hi, hi1]⟩
      | true =>
        have hjge : i + 2 ≤ j := by
          by_contra hc
          have hcase : j = i ∨ j = i + 1 := by omega
          rcases hcase with h | h <;> rw [h] at hj
          · rw [hi] at hj; exact Bool.noConfusion hj
          · rw [hi1] at hj; exact Bool.noConfusion hj
        obtain ⟨tr2, heq⟩ := ih (i + 2)
          (tr ++ [Ev.write 1 ((data.drop (page * 512 + b * 64)).take 64)
            (some 2500), Ev.read 0x81 64 (some 2500)])
          ⟨j, hjge, by simp only [List.length_cons] at hj2; omega, hj⟩
        refine ⟨tr2, ?_⟩
        simp only [runWriteBlocks, hi, hi1, if_true]
        exact heq

theorem runWritePages_fail (tOk : Nat → Bool) (data : List Nat)
    (ps : List Nat) :
    ∀ i tr, (∃ j, i ≤ j ∧ j < i + 18 * ps.length ∧ tOk j = false) →
    ∃ tr2, runWritePages tOk data ps i tr = .wfail tr2 := by
  induction ps with
  | nil =>
    intro i tr ⟨j, hj1, hj2, _⟩
    simp only [List.length_nil, Nat.mul_zero, Nat.add_zero] at hj2
    omega
  | cons p rest ih =>
    intro i tr hex
    by_cases hfirst : ∃ j2, i ≤ j2 ∧ j2 < i + 18 ∧ tOk j2 = false
    · obtain ⟨j2, h1, h2, hj2⟩ := hfirst
      cases hi : tOk i with
      | false =>
        exact ⟨tr ++ [Ev.write 1 [2, p] none], by simp [runWritePages, hi]⟩
      | true =>
        cases hi1 : tOk (i + 1) with
        | false =>
          exact ⟨tr ++ [Ev.write 1 [2, p] none, Ev.read 0x81 64 (some 2500)],
            by simp [runWritePages, hi, hi1]⟩
        | true =>
          have hjge : i + 2 ≤ j2 := by
            by_contra hc
            have hcase : j2 = i ∨ j2 = i + 1 := by omega
            rcases hcase with h | h <;> rw [h] at hj2
            · rw [hi] at hj2; exact Bool.noConfusion hj2
            · rw [hi1] at hj2; exact Bool.noConfusion hj2
          obtain ⟨tr2, heq⟩ := runWriteBlocks_fail tOk data p (List.range 8)
            (i + 2)
            (tr ++ [Ev.write 1 [2, p] none, Ev.read 0x81 64 (some 2500)])
            ⟨j2, hjge, by simp only [List.length_range]; omega, hj2⟩
          refine ⟨tr2, ?_⟩
          simp only [runWritePages, hi, hi1, if_true, heq]
    · push_neg at hfirst
      have hall : ∀ j2, i ≤ j2 → j2 < i + 18 → tOk j2 = true := by
        intro j2 ha hb
        have hne := hfirst j2 ha hb
        cases hx : tOk j2 with
        | false => exact absurd hx hne
        | true => rfl
      have hi : tOk i = true := hall i (le_refl i) (by omega)
      have hi1 : tOk (i + 1) = true := hall (i + 1) (by omega) (by omega)
      have hbl := runWriteBlocks_ok tOk data p (List.range 8) (i + 2)
        (tr ++ [Ev.write 1 [2, p] none, Ev.read 0x81 64 (some 2500)])
        (fun j2 ha hb => hall j2 (by omega)
          (by simp only [List.length_range] at hb; omega))
      obtain ⟨j, hj1, hj2, hj⟩ := hex
      have hjge : i + 18 ≤ j := by
        by_contra hc
        have heq := hall j hj1 (by omega)
        rw [heq] at hj
        exact Bool.noConfusion hj
      obtain ⟨tr2, heq⟩ := ih (i + 2 + 2 * (List.range 8).length)
        (tr ++ [Ev.write 1 [2, p] none, Ev.read 0x81 64 (some 2500)] ++
          wbEvs data p (List.range 8))
        ⟨j, by simp only [List.length_range]; omega,
          by simp only [List.length_cons] at hj2
             simp only [List.length_range]; omega, hj⟩
      refine ⟨tr2, ?_⟩
      simp only [List.length_range, List.append_assoc, List.cons_append,
        List.nil_append] at hbl heq
      simp only [runWritePages, hi, hi1, if_true, hbl, heq]

theorem isVerifyCmd_write_long (ep : Nat) (pl : List Nat) (t : Option Nat)
    (h : pl.length ≠ 2) : isVerifyCmd (Ev.write ep pl t) = false := by
  rcases pl with _ | ⟨a, _ | ⟨b, _ | ⟨c, rest⟩⟩⟩ <;> simp_all [isVerifyCmd]

theorem isVerifyCmd_w2 (ep p : Nat) (t : Option Nat) :
    isVerifyCmd (Ev.write ep [2, p] t) = false := by
  simp [isVerifyCmd]

theorem isVerifyCmd_read (ep len : Nat) (t : Option Nat) :
    isVerifyCmd (Ev.read ep len t) = false := rfl

theorem noVerify_append (tr l : List Ev)
    (h1 : ∀ e ∈ tr, isVerifyCmd e = false)
    (h2 : ∀ e ∈ l, isVerifyCmd e = false) :
    ∀ e ∈ tr ++ l, isVerifyCmd e = false := by
  intro e he
  rcases List.mem_append.1 he with h | h
  · exact h1 e h
  · exact h2 e h

theorem runWriteBlocks_noVerify (tOk : Nat → Bool) (data : List Nat)
    (page : Nat) (bs : List Nat) :
    ∀ i tr, (∀ e ∈ tr, isVerifyCmd e = false) →
    (∀ b ∈ bs, page * 512 + b * 64 + 64 ≤ data.length) →
    ∀ e ∈ (runWriteBlocks tOk data page bs i tr).trace,
      isVerifyCmd e = false := by
  induction bs with
  | nil =>
    intro i tr htr _ e he
    simp only [runWriteBlocks, RunRes.trace] at he
    exact htr e he
  | cons b rest ih =>
    intro i tr htr hb
    have hw : isVerifyCmd (Ev.write 1
        ((data.drop (page * 512 + b * 64)).take 64) (some 2500)) = false := by
      apply isVerifyCmd_write_long
      rw [slice_take_length data _ (hb b (by simp))]
      omega
    have htr1 : ∀ e ∈ tr ++ [Ev.write 1
        ((data.drop (page * 512 + b * 64)).take 64) (some 2500)],
        isVerifyCmd e = false := by
      refine noVerify_append _ _ htr ?_
      intro e he
      simp only [List.mem_singleton] at he
      rw [he]
      exact hw
    have htr2 : ∀ e ∈ tr ++ [Ev.write 1
        ((data.drop (page * 512 + b * 64)).take 64) (some 2500),
        Ev.read 0x81 64 (some 2500)], isVerifyCmd e = false := by
      refine noVerify_append _ _ htr ?_
      intro e he
      simp only [List.mem_cons, List.mem_singleton, List.not_mem_nil,
        or_false] at he
      rcases he with h | h <;> rw [h]
      · exact hw
      · rfl
    cases hi : tOk i with
    | false =>
      intro e he
      simp only [runWriteBlocks, hi, Bool.false_eq_true, if_false,
        RunRes.trace] at he
      exact htr1 e he
    | true =>
      cases hi1 : tOk (i + 1) with
      | false =>
        intro e he
        simp only [runWriteBlocks, hi, hi1, if_true, Bool.false_eq_true,
          if_false, RunRes.trace] at he
        exact htr2 e he
      | true =>
        intro e he
        simp only [runWriteBlocks, hi, hi1, if_true] at he
        exact ih (i + 2) _ htr2 (fun x hx => hb x (by simp [hx])) e he

theorem runWritePages_noVerify (tOk : Nat → Bool) (data : List Nat)
    (ps : List Nat) :
    ∀ i tr, (∀ e ∈ tr, isVerifyCmd e = false) →
    (∀ p ∈ ps, (p + 1) * 512 ≤ data.length) →
    ∀ e ∈ (runWritePages tOk data ps i tr).trace,
      isVerifyCmd e = false := by
  induction ps with
  | nil =>
    intro i tr htr _ e he
    simp only [runWritePages, RunRes.trace] at he
    exact htr e he
  | cons p rest ih =>
    intro i tr htr hp
    have hp0 : (p + 1) * 512 ≤ data.length := hp p (by simp)
    have htr1 : ∀ e ∈ tr ++ [Ev.write 1 [2, p] none],
        isVerifyCmd e = false := by
      refine noVerify_append _ _ htr ?_
      intro e he
      simp only [List.mem_singleton] at he
      rw [he]
      exact isVerifyCmd_w2 1 p none
    have htr2 : ∀ e ∈ tr ++ [Ev.write 1 [2, p] none,
        Ev.read 0x81 64 (some 2500)], isVerifyCmd e = false := by
      refine noVerify_append _ _ htr ?_
      intro e he
      simp only [List.mem_cons, List.mem_singleton, List.not_mem_nil,
        or_false] at he
      rcases he with h | h <;> rw [h]
      · exact isVerifyCmd_w2 1 p none
      · rfl
    have hbs : ∀ b ∈ List.range 8, p * 512 + b * 64 + 64 ≤ data.length := by
      intro b hbm
      simp only [List.mem_range] at hbm
      omega
    cases hi : tOk i with
    | false =>
      intro e he
      simp only [runWritePages, hi, Bool.false_eq_true, if_false,
        RunRes.trace] at he
      exact htr1 e he
    | true =>
      cases hi1 : tOk (i + 1) with
      | false =>
        intro e he
        simp only [runWritePages, hi, hi1, if_true, Bool.false_eq_true,
          if_false, RunRes.trace] at he
        exact htr2 e he
      | true =>
        have hin := runWriteBlocks_noVerify tOk data p (List.range 8) (i + 2)
          (tr ++ [Ev.write 1 [2, p] none, Ev.read 0x81 64 (some 2500)])
          htr2 hbs
        intro e he
        simp only [runWritePages, hi, hi1, if_true] at he
        cases hwb : runWriteBlocks tOk data p (List.range 8) (i + 2)
            (tr ++ [Ev.write 1 [2, p] none, Ev.read 0x81 64 (some 2500)]) with
        | ok bn2 i2 tr2 =>
          rw [hwb] at he hin
          simp only [RunRes.trace] at hin
          exact ih i2 tr2 hin (fun x hx => hp x (by simp [hx])) e he
        | wfail tr2 =>
          rw [hwb] at he hin
          simp only [RunRes.trace] at hin he
          exact hin e he
        | vfail pg bl tr2 =>
          rw [hwb] at he hin
          simp only [RunRes.trace] at hin he
          exact hin e he

/-- C6: on a padded image, if some transfer within the page-writing phase
fails, the whole flow ends in a transfer failure and no verification
command — neither `[0x06, 0]` nor any `[0x03, n]` — is ever issued. -/
theorem C6_write_fail_aborts (tOk : Nat → Bool) (devData : Nat → List Nat)
    (data : List Nat) (hpad : data.length % 512 = 0)
    (hfail : ∃ j, j < 18 * (data.length / 512) ∧ tOk j = false) :
    (flash tOk devData data).1 = .transferFailed ∧
    ∀ e ∈ (flash tOk devData data).2, isVerifyCmd e = false := by
  obtain ⟨tr2, heq⟩ := runWritePages_fail tOk data
    (List.range (data.length / 512)) 0 []
    (by
      obtain ⟨j, hj1, hj2⟩ := hfail
      exact ⟨j, Nat.zero_le j,
        by simp only [List.length_range]; omega, hj2⟩)
  constructor
  · simp only [flash, heq]
  · intro e he
    have hnv := runWritePages_noVerify tOk data
      (List.range (data.length / 512)) 0 []
      (by intro x hx; exact absurd hx (List.not_mem_nil x))
      (fun p hpm => by simp only [List.mem_range] at hpm; omega)
    rw [heq] at hnv
    simp only [RunRes.trace] at hnv
    simp only [flash, heq] at he
    exact hnv e he

/-- Witness for C6: the very first transfer (the first page header) fails
on a one-page image; the flow reports a transfer failure and the trace
holds no verification command. -/
theorem C6_write_fail_aborts_witness :
    (flash (fun j => decide (j ≠ 0))
        (fun n => slice64 (List.replicate 512 0) n)
        (List.replicate 512 0)).1 = .transferFailed ∧
    ∀ e ∈ (flash (fun j => decide (j ≠ 0))
        (fun n => slice64 (List.replicate 512 0) n)
        (List.replicate 512 0)).2, isVerifyCmd e = false :=
  C6_write_fail_aborts _ _ _
    (by simp only [List.length_replicate, Nat.mod_self])
    ⟨0, by simp only [List.length_replicate]; decide, by decide⟩

theorem runWriteBlocks_trace_inv (P : Ev → Prop) (tOk : Nat → Bool)
    (data : List Nat) (page : Nat)
    (hW : ∀ pl, P (Ev.write 1 pl (some 2500)))
    (hR : P (Ev.read 0x81 64 (some 2500))) (bs : List Nat) :
    ∀ i tr, (∀ e ∈ tr, P e) →
    ∀ e ∈ (runWriteBlocks tOk data page bs i tr).trace, P e := by
  induction bs with
  | nil =>
    intro i tr htr e he
    simp only [runWriteBlocks, RunRes.trace] at he
    exact htr e he
  | cons b rest ih =>
    intro i tr htr
    have htr1 : ∀ e ∈ tr ++ [Ev.write 1
        ((data.drop (page * 512 + b * 64)).take 64) (some 2500)], P e := by
      intro e he
      rcases List.mem_append.1 he with h | h
      · exact htr e h
      · simp only [List.mem_singleton] at h; rw [h]; exact hW _
    have htr2 : ∀ e ∈ tr ++ [Ev.write 1
        ((data.drop (page * 512 + b * 64)).take 64) (some 2500),
        Ev.read 0x81 64 (some 2500)], P e := by
      intro e he
      rcases List.mem_append.1 he with h | h
      · exact htr e h
      · simp only [List.mem_cons, List.mem_singleton, List.not_mem_nil,
          or_false] at h
        rcases h with h | h <;> rw [h]
        · exact hW _
        · exact hR
    cases hi : tOk i with
    | false =>
      intro e he
      simp only [runWriteBlocks, hi, Bool.false_eq_true, if_false,
        RunRes.trace] at he
      exact htr1 e he
    | true =>
      cases hi1 : tOk (i + 1) with
      | false =>
        intro e he
        simp only [runWriteBlocks, hi, hi1, if_true, Bool.false_eq_true,
          if_false, RunRes.trace] at he
        exact htr2 e he
      | true =>
        intro e he
        simp only [runWriteBlocks, hi, hi1, if_true] at he
        exact ih (i + 2) _ htr2 e he

theorem runWritePages_trace_inv (P : Ev → Prop) (tOk : Nat → Bool)
    (data : List Nat)
    (hW : ∀ pl, P (Ev.write 1 pl (some 2500)))
    (hR : P (Ev.read 0x81 64 (some 2500)))
    (hH : ∀ p, P (Ev.write 1 [2, p] none)) (ps : List Nat) :
    ∀ i tr, (∀ e ∈ tr, P e) →
    ∀ e ∈ (runWritePages tOk data ps i tr).trace, P e := by
  induction ps with
  | nil =>
    intro i tr htr e he
    simp only [runWritePages, RunRes.trace] at he
    exact htr e he
  | cons p rest ih =>
    intro i tr htr
    have htr1 : ∀ e ∈ tr ++ [Ev.write 1 [2, p] none], P e := by
      intro e he
      rcases List.mem_append.1 he with h | h
      · exact htr e h
      · simp only [List.mem_singleton] at h; rw [h]; exact hH p
    have htr2 : ∀ e ∈ tr ++ [Ev.write 1 [2, p] none,
        Ev.read 0x81 64 (some 2500)], P e := by
      intro e he
      rcases List.mem_append.1 he with h | h
      · exact htr e h
      · simp only [List.mem_cons, List.mem_singleton, List.not_mem_nil,
          or_false] at h
        rcases h with h | h <;> rw [h]
        · exact hH p
        · exact hR
    cases hi : tOk i with
    | false =>
      intro e he
      simp only [runWritePages, hi, Bool.false_eq_true, if_false,
        RunRes.trace] at he
      exact htr1 e he
    | true =>
      cases hi1 : tOk (i + 1) with
      | false =>
        intro e he
        simp only [runWritePages, hi, hi1, if_true, Bool.false_eq_true,
          if_false, RunRes.trace] at he
        exact htr2 e he
      | true =>
        have hin := runWriteBlocks_trace_inv P tOk data p hW hR
          (List.range 8) (i + 2)
          (tr ++ [Ev.write 1 [2, p] none, Ev.read 0x81 64 (some 2500)]) htr2
        intro e he
        simp only [runWritePages, hi, hi1, if_true] at he
        cases hwb : runWriteBlocks tOk data p (List.range 8) (i + 2)
            (tr ++ [Ev.write 1 [2, p] none, Ev.read 0x81 64 (some 2500)]) with
        | ok bn2 i2 tr2 =>
          rw [hwb] at he hin
          simp only [RunRes.trace] at hin
          exact ih i2 tr2 hin e he
        | wfail tr2 =>
          rw [hwb] at he hin
          simp only [RunRes.trace] at hin he
          exact hin e he
        | vfail pg bl tr2 =>
          rw [hwb] at he hin
          simp only [RunRes.trace] at hin he
          exact hin e he

theorem runVerifyBlocks_trace_inv (P : Ev → Prop) (tOk : Nat → Bool)
    (devData : Nat → List Nat) (data : List Nat) (page : Nat)
    (hW : ∀ pl, P (Ev.write 1 pl (some 2500)))
    (hR : P (Ev.read 0x81 64 (some 2500))) (bs : List Nat) :
    ∀ bn i tr, (∀ e ∈ tr, P e) →
    ∀ e ∈ (runVerifyBlocks tOk devData data page bs bn i tr).trace, P e := by
  induction bs with
  | nil =>
    intro bn i tr htr e he
    simp only [runVerifyBlocks, RunRes.trace] at he
    exact htr e he
  | cons b rest ih =>
    intro bn i tr htr
    have htr1 : ∀ e ∈ tr ++ [Ev.write 1 [3, bn] (some 2500)], P e := by
      intro e he
      rcases List.mem_append.1 he with h | h
      · exact htr e h
      · simp only [List.mem_singleton] at h; rw [h]; exact hW _
    have htr2 : ∀ e ∈ tr ++ [Ev.write 1 [3, bn] (some 2500),
        Ev.read 0x81 64 (some 2500)], P e := by
      intro e he
      rcases List.mem_append.1 he with h | h
      · exact htr e h
      · simp only [List.mem_cons, List.mem_singleton, List.not_mem_nil,
          or_false] at h
        rcases h with h | h <;> rw [h]
        · exact hW _
        · exact hR
    cases hi : tOk i with
    | false =>
      intro e he
      simp only [runVerifyBlocks, hi, Bool.false_eq_true, if_false,
        RunRes.trace] at he
      exact htr1 e he
    | true =>
      cases hi1 : tOk (i + 1) with
      | false =>
        intro e he
        simp only [runVerifyBlocks, hi, hi1, if_true, Bool.false_eq_true,
          if_false, RunRes.trace] at he
        exact htr2 e he
      | true =>
        by_cases hd : devData bn = slice64 data bn
        · intro e he
          simp only [runVerifyBlocks, hi, hi1, if_true, if_pos hd] at he
          exact ih (bn + 1) (i + 2) _ htr2 e he
        · intro e he
          simp only [runVerifyBlocks, hi, hi1, if_true, if_neg hd,
            RunRes.trace] at he
          exact htr2 e he

theorem runVerifyPages_trace_inv (P : Ev → Prop) (tOk : Nat → Bool)
    (devData : Nat → List Nat) (data : List Nat)
    (hW : ∀ pl, P (Ev.write 1 pl (some 2500)))
    (hR : P (Ev.read 0x81 64 (some 2500))) (ps : List Nat) :
    ∀ bn i tr, (∀ e ∈ tr, P e) →
    ∀ e ∈ (runVerifyPages tOk devData data ps bn i tr).trace, P e := by
  induction ps with
  | nil =>
    intro bn i tr htr e he
    simp only [runVerifyPages, RunRes.trace] at he
    exact htr e he
  | cons p rest ih =>
    intro bn i tr htr
    have htr1 : ∀ e ∈ tr ++ [Ev.write 1 [6, 0] (some 2500)], P e := by
      intro e he
      rcases List.mem_append.1 he with h | h
      · exact htr e h
      · simp only [List.mem_singleton] at h; rw [h]; exact hW _
    have htr2 : ∀ e ∈ tr ++ [Ev.write 1 [6, 0] (some 2500),
        Ev.read 0x81 64 (some 2500)], P e := by
      intro e he
      rcases List.mem_append.1 he with h | h
      · exact htr e h
      · simp only [List.mem_cons, List.mem_singleton, List.not_mem_nil,
          or_false] at h
        rcases h with h | h <;> rw [h]
        · exact hW _
        · exact hR
    cases hi : tOk i with
    | false =>
      intro e he
      simp only [runVerifyPages, hi, Bool.false_eq_true, if_false,
        RunRes.trace] at he
      exact htr1 e he
    | true =>
      cases hi1 : tOk (i + 1) with
      | false =>
        intro e he
        simp only [runVerifyPages, hi, hi1, if_true, Bool.false_eq_true,
          if_false, RunRes.trace] at he
        exact htr2 e he
      | true =>
        have hin := runVerifyBlocks_trace_inv P tOk devData data p hW hR
          (List.range 8) bn (i + 2)
          (tr ++ [Ev.write 1 [6, 0] (some 2500),
            Ev.read 0x81 64 (some 2500)]) htr2
        intro e he
        simp only [runVerifyPages, hi, hi1, if_true] at he
        cases hwb : runVerifyBlocks tOk devData data p (List.range 8) bn
            (i + 2) (tr ++ [Ev.write 1 [6, 0] (some 2500),
            Ev.read 0x81 64 (some 2500)]) with
        | ok bn2 i2 tr2 =>
          rw [hwb] at he hin
          simp only [RunRes.trace] at hin
          exact ih bn2 i2 tr2 hin e he
        | wfail tr2 =>
          rw [hwb] at he hin
          simp only [RunRes.trace] at hin he
          exact hin e he
        | vfail pg bl tr2 =>
          rw [hwb] at he hin
          simp only [RunRes.trace] at hin he
          exact hin e he

theorem flash_trace_inv (P : Ev → Prop) (tOk : Nat → Bool)
    (devData : Nat → List Nat) (data : List Nat)
    (hW : ∀ pl, P (Ev.write 1 pl (some 2500)))
    (hR : P (Ev.read 0x81 64 (some 2500)))
    (hH : ∀ p, P (Ev.write 1 [2, p] none)) :
    ∀ e ∈ (flash tOk devData data).2, P e := by
  have hw := runWritePages_trace_inv P tOk data hW hR hH
    (List.range (data.length / 512)) 0 []
    (by intro x hx; exact absurd hx (List.not_mem_nil x))
  intro e he
  cases hwp : runWritePages tOk data (List.range (data.length / 512)) 0 []
      with
  | ok bn i tr =>
    have hw2 : ∀ x ∈ tr, P x := by
      rw [hwp] at hw
      simpa only [RunRes.trace] using hw
    have hv := runVerifyPages_trace_inv P tOk devData data hW hR
      (List.range (data.length / 512)) 0 i tr hw2
    cases hvp : runVerifyPages tOk devData data
        (List.range (data.length / 512)) 0 i tr with
    | ok bn2 i2 tr2 =>
      simp only [flash, hwp, hvp] at he
      rw [hvp] at hv
      simp only [RunRes.trace] at hv
      exact hv e he
    | wfail tr2 =>
      simp only [flash, hwp, hvp] at he
      rw [hvp] at hv
      simp only [RunRes.trace] at hv
      exact hv e he
    | vfail pg bl tr2 =>
      simp only [flash, hwp, hvp] at he
      rw [hvp] at hv
      simp only [RunRes.trace] at hv
      exact hv e he
  | wfail tr =>
    simp only [flash, hwp] at he
    rw [hwp] at hw
    simp only [RunRes.trace] at hw
    exact hw e he
  | vfail pg bl tr =>
    simp only [flash, hwp] at he
    rw [hwp] at hw
    simp only [RunRes.trace] at hw
    exact hw e he

/-- C5 (amended): every transfer issued during the write and verify phases
either carries the fixed 2500 ms timeout or is a page-header write
`[0x02, page]`, which the script issues with no explicit timeout
(falling back to the library default). -/
theorem C5_timeouts (tOk : Nat → Bool) (devData : Nat → List Nat)
    (data : List Nat) :
    ∀ e ∈ (flash tOk devData data).2,
      Ev.timeoutOf e = some 2500 ∨ ∃ p, e = Ev.write 1 [2, p] none :=
  flash_trace_inv _ tOk devData data
    (fun _ => Or.inl rfl) (Or.inl rfl) (fun p => Or.inr ⟨p, rfl⟩)

/-- C5 counterexample: on a concrete one-page image the page-header write
`[0x02, 0]` is issued with no explicit timeout, so not every transfer of
the write/verify phases carries the 2500 ms timeout. -/
theorem C5_counterexample :
    ¬ (∀ e ∈ (flash (fun _ => true)
        (fun n => slice64 (List.replicate 512 0) n)
        (List.replicate 512 0)).2, Ev.timeoutOf e = some 2500) := by
  intro h
  have hmem : Ev.write 1 [2, 0] none ∈ (flash (fun _ => true)
      (fun n => slice64 (List.replicate 512 0) n)
      (List.replicate 512 0)).2 := by
    simp only [flash_ok (fun _ => true)
        (fun n => slice64 (List.replicate 512 0) n)
        (List.replicate 512 0) (fun _ => rfl) (fun n _ => rfl),
      List.length_replicate, Nat.div_self (by norm_num : (0 : Nat) < 512)]
    rw [show List.range 1 = [0] from rfl, wpEvs]
    exact List.mem_append_left _ (List.mem_cons_self _ _)
  have hto := h _ hmem
  simp [Ev.timeoutOf] at hto

/-- C7: for a device found under product 0x0102 the entry command is the
single byte 0xFF written to bulk endpoint 0x01; for one found under
product 0x7777 it is the control transfer (0x40, 0xFF, 0, 0, no data);
in each case exactly one command is sent to that device. -/
theorem C7_entry_commands (bus : Nat → Nat → Bool) :
    (bus 0x1915 0x0102 = true →
      entryCmdsTo 0x0102 (entryPhase bus) =
        [DEv.bulkWrite 0x0102 1 [0xFF] (some 2500)]) ∧
    (bus 0x1915 0x7777 = true →
      entryCmdsTo 0x7777 (entryPhase bus) =
        [DEv.ctrl 0x7777 0x40 0xFF 0 0 2500]) := by
  cases hA : bus 0x1915 0x0102 <;> cases hB : bus 0x1915 0x7777 <;>
    refine ⟨?_, ?_⟩ <;> intro h <;>
    simp_all [entryPhase, entryStep, entryCmdsTo, isCmdTo]

/-- Witness for C7 with both personalities attached. -/
theorem C7_entry_commands_witness :
    entryCmdsTo 0x0102 (entryPhase (fun _ _ => true)) =
      [DEv.bulkWrite 0x0102 1 [0xFF] (some 2500)] ∧
    entryCmdsTo 0x7777 (entryPhase (fun _ _ => true)) =
      [DEv.ctrl 0x7777 0x40 0xFF 0 0 2500] :=
  ⟨(C7_entry_commands (fun _ _ => true)).1 rfl,
   (C7_entry_commands (fun _ _ => true)).2 rfl⟩

/-- C8: for every configuration of attached devices, the application-mode
lookups happen in the fixed order product 0x0102 first, product 0x7777
second. -/
theorem C8_discovery_order (bus : Nat → Nat → Bool) :
    (entryPhase bus).filter isFind =
      [DEv.find 0x1915 0x0102, DEv.find 0x1915 0x7777] := by
  cases hA : bus 0x1915 0x0102 <;> cases hB : bus 0x1915 0x7777 <;>
    simp [entryPhase, entryStep, isFind, hA, hB]

/-- C9 counterexample: with both application-mode personalities attached,
the loop still looks up product 0x7777 after finding and commanding the
0x0102 device, and sends the second device its entry command too. -/
theorem C9_counterexample :
    DEv.find 0x1915 0x7777 ∈ entryPhase (fun _ _ => true) ∧
    DEv.ctrl 0x7777 0x40 0xFF 0 0 2500 ∈ entryPhase (fun _ _ => true) := by
  decide

/-- C9 (amended): the application-mode search does not stop after a
successful find: the lookup for the remaining personality is always
performed, and when that device is also present it too receives its entry
command. -/
theorem C9_no_short_circuit (bus : Nat → Nat → Bool) :
    DEv.find 0x1915 0x7777 ∈ entryPhase bus ∧
    (bus 0x1915 0x0102 = true → bus 0x1915 0x7777 = true →
      DEv.ctrl 0x7777 0x40 0xFF 0 0 2500 ∈ entryPhase bus) := by
  cases hA : bus 0x1915 0x0102 <;> cases hB : bus 0x1915 0x7777 <;>
    simp [entryPhase, entryStep, hA, hB]

/-- Witness for C9 with both personalities attached. -/
theorem C9_no_short_circuit_witness :
    DEv.find 0x1915 0x7777 ∈ entryPhase (fun v p => decide (v = 0x1915)) ∧
    DEv.ctrl 0x7777 0x40 0xFF 0 0 2500 ∈
      entryPhase (fun v p => decide (v = 0x1915)) :=
  ⟨(C9_no_short_circuit (fun v p => decide (v = 0x1915))).1,
   (C9_no_short_circuit (fun v p => decide (v = 0x1915))).2
     (by decide) (by decide)⟩

theorem bootloaderPoll_succ_trace (found : Nat → Bool) :
    ∀ fuel k, (bootloaderPoll found fuel k).1 = true →
    ∃ n, (bootloaderPoll found fuel k).2 =
      List.replicate n (BEv.find 0x1915 0x0101) ++
        [BEv.find 0x1915 0x0101, BEv.setConfig] := by
  intro fuel
  induction fuel with
  | zero => intro k h; simp [bootloaderPoll] at h
  | succ f ih =>
    intro k h
    cases hf : found k with
    | true =>
      refine ⟨0, ?_⟩
      simp [bootloaderPoll, hf]
    | false =>
      simp only [bootloaderPoll, hf, Bool.false_eq_true, if_false] at h ⊢
      obtain ⟨n, hn⟩ := ih (k + 1) h
      refine ⟨n + 1, ?_⟩
      rw [hn]
      simp [List.replicate_succ]

theorem count_setConfig_map_proto (l : List Ev) :
    (l.map BEv.proto).count BEv.setConfig = 0 := by
  induction l with
  | nil => rfl
  | cons e rest ih => simp [List.count_cons, ih]

/-- C10: whenever bootloader re-discovery succeeds, the trace from that
phase onward consists of some failed polls, then the successful find
immediately followed by setConfiguration, and only then the
bootloader-protocol transfers: setConfiguration is invoked exactly once,
after the successful lookup and before any protocol write or read. -/
theorem C10_setConfig (found : Nat → Bool) (fuel : Nat) (tOk : Nat → Bool)
    (devData : Nat → List Nat) (data : List Nat)
    (h : (bootloaderPoll found fuel 0).1 = true) :
    (∃ n, (bootPhase found fuel tOk devData data).2 =
      List.replicate n (BEv.find 0x1915 0x0101) ++
        [BEv.find 0x1915 0x0101, BEv.setConfig] ++
        (flash tOk devData data).2.map BEv.proto) ∧
    (bootPhase found fuel tOk devData data).2.count BEv.setConfig = 1 := by
  obtain ⟨n, hn⟩ := bootloaderPoll_succ_trace found fuel 0 h
  constructor
  · refine ⟨n, ?_⟩
    simp only [bootPhase, h, if_true, hn, List.append_assoc]
  · simp only [bootPhase, h, if_true, hn]
    rw [List.count_append, List.count_append]
    rw [count_setConfig_map_proto]
    simp [List.count_replicate, List.count_cons]

/-- Witness for C10: the bootloader is visible on the first poll and the
image is empty. -/
theorem C10_setConfig_witness :
    (∃ n, (bootPhase (fun _ => true) 1 (fun _ => true)
        (fun _ => ([] : List Nat)) []).2 =
      List.replicate n (BEv.find 0x1915 0x0101) ++
        [BEv.find 0x1915 0x0101, BEv.setConfig] ++
        (flash (fun _ => true) (fun _ => ([] : List Nat)) []).2.map
          BEv.proto) ∧
    (bootPhase (fun _ => true) 1 (fun _ => true)
        (fun _ => ([] : List Nat)) []).2.count BEv.setConfig = 1 :=
  C10_setConfig _ 1 _ _ [] (by decide)

/-- Witness for the amended C5 at the page-header event of a concrete
one-page run, which is covered by the no-explicit-timeout disjunct. -/
theorem C5_timeouts_witness :
    Ev.timeoutOf (Ev.write 1 [2, 0] none) = some 2500 ∨
      ∃ p, Ev.write 1 [2, 0] none = Ev.write 1 [2, p] none :=
  C5_timeouts (fun _ => true)
    (fun n => slice64 (List.replicate 512 0) n) (List.replicate 512 0)
    (Ev.write 1 [2, 0] none)
    (by
      simp only [flash_ok (fun _ => true)
          (fun n => slice64 (List.replicate 512 0) n)
          (List.replicate 512 0) (fun _ => rfl) (fun n _ => rfl),
        List.length_replicate, Nat.div_self (by norm_num : (0 : Nat) < 512)]
      rw [show List.range 1 = [0] from rfl, wpEvs]
      exact List.mem_append_left _ (List.mem_cons_self _ _))
